import Mathlib

/-!
Verification of the `fasttest` browser test runner (package `fasttest`,
chromedp-based variant: `Runner`, `Run`, `runTest`, `takeScreenshot`,
`takeSnapshot`, `compareImages`, `normalizeHTML`).

Shallow embedding conventions:
* Go strings are modelled as `List Char` (`Chars`); `String`-level wrappers
  are provided where a claim speaks about strings.  Each `strings.ReplaceAll`
  call with a concrete pattern is translated to a structural recursion with
  the same leftmost, non-overlapping match semantics.
* Browser interaction is abstracted by oracles: the result of executing one
  step is given by an environment function (`TestEnv.stepResult`), console
  events captured during a test by `TestEnv.consoleEvents`, PNG decoding and
  encoding by oracle functions (`Bytes → Option Image`, `Image → Bytes`).
* The filesystem is a partial map from paths to contents; `os.WriteFile` is
  a pointwise update, `os.Stat`/`os.ReadFile` a lookup.
* Go `float64` difference ratios are modelled as `ℚ`; the values relevant to
  the claims (0 and 1, and comparisons against the threshold) are exact.
* The worker pool of `Run` is modelled by an interleaving relation `MergeN`:
  the channel distributes the queued tests among the workers (each worker's
  slice preserves queue order), and the result channel receives an arbitrary
  interleaving of the workers' output streams.
-/

namespace Fasttest

abbrev Chars := List Char

abbrev Bytes := List Nat

/-- Go `strings.Contains` (leftmost scan over every suffix). -/
def containsSeq : Chars → Chars → Bool
  | s, pat =>
    if s.take pat.length = pat then true
    else
      match s with
      | [] => false
      | _ :: cs => containsSeq cs pat

/-- Go `strings.ReplaceAll(s, string(a), string(b))` for a single-character
pattern and replacement: every occurrence of `a` becomes `b`. -/
def replaceChar (a b : Char) (s : Chars) : Chars :=
  s.map fun c => if c = a then b else c

/-- One pass of Go `strings.ReplaceAll(s, "  ", " ")`: leftmost,
non-overlapping replacement of two spaces by one. -/
def squeeze1 : Chars → Chars
  | [] => []
  | ' ' :: ' ' :: rest => ' ' :: squeeze1 rest
  | c :: rest => c :: squeeze1 rest

/-- The `for strings.Contains(html, "  ")` loop of `normalizeHTML`, with
explicit fuel.  Each iteration of `squeeze1` strictly shrinks a string that
still contains a double space, so fuel `s.length` always reaches the loop's
fixed point (`collapseSpaces_noDoubleSpace`). -/
def collapseLoop : Nat → Chars → Chars
  | 0, s => s
  | n + 1, s =>
    if containsSeq s [' ', ' '] then collapseLoop n (squeeze1 s) else s

def collapseSpaces (s : Chars) : Chars :=
  collapseLoop s.length s

/-- Go `strings.ReplaceAll(s, "> <", "><")`. -/
def delGtSpLt : Chars → Chars
  | [] => []
  | '>' :: ' ' :: '<' :: rest => '>' :: '<' :: delGtSpLt rest
  | c :: rest => c :: delGtSpLt rest

/-- Go `strings.ReplaceAll(s, "> ", ">")`. -/
def delSpaceAfterGt : Chars → Chars
  | [] => []
  | '>' :: ' ' :: rest => '>' :: delSpaceAfterGt rest
  | c :: rest => c :: delSpaceAfterGt rest

/-- Go `strings.ReplaceAll(s, " <", "<")`. -/
def delSpaceBeforeLt : Chars → Chars
  | [] => []
  | ' ' :: '<' :: rest => '<' :: delSpaceBeforeLt rest
  | c :: rest => c :: delSpaceBeforeLt rest

/-- Go `unicode.IsSpace` restricted to the code points it recognises
(Latin-1 range: `\t \n \v \f \r ' '`, NEL, NBSP). -/
def goIsSpace (c : Char) : Bool :=
  c = ' ' || c = '\t' || c = '\n' || c = '\u000b' || c = '\u000c' ||
  c = '\r' || c = '\u0085' || c = '\u00A0'

/-- Go `strings.TrimSpace`: drop whitespace from both ends
(`rdropWhile p l = (l.reverse.dropWhile p).reverse`). -/
def trimSpace (s : Chars) : Chars :=
  List.rdropWhile goIsSpace (s.dropWhile goIsSpace)

/-- `Runner.normalizeHTML`, on character lists: replace `\n`, `\r`, `\t` by
spaces; collapse runs of spaces; drop spaces at tag boundaries
(`"> <"`, `"> "`, `" <"`); trim.  The Go function reassigns its local
variable after each `ReplaceAll`; the embedding is the same pipeline as a
composition. -/
def normalizeHTMLChars (s : Chars) : Chars :=
  trimSpace (delSpaceBeforeLt (delSpaceAfterGt (delGtSpLt (collapseSpaces
    (replaceChar '\t' ' ' (replaceChar '\r' ' ' (replaceChar '\n' ' ' s)))))))

/-- The strings that the normalization pipeline can produce: no raw `\n`,
`\r`, `\t`, no double space, no space directly after `>` or directly before
`<`, and no whitespace at either end.  `normalizeHTML` maps every string
into this set and fixes every string in it, which yields idempotence. -/
def NormalizedHTML (s : Chars) : Prop :=
  '\n' ∉ s ∧ '\r' ∉ s ∧ '\t' ∉ s ∧
  containsSeq s [' ', ' '] = false ∧
  containsSeq s ['>', ' '] = false ∧
  containsSeq s [' ', '<'] = false ∧
  (∀ a, s.head? = some a → goIsSpace a = false) ∧
  (∀ a, s.getLast? = some a → goIsSpace a = false)

/-- `Runner.normalizeHTML` on Go strings. -/
def normalizeHTML (s : String) : String :=
  ⟨normalizeHTMLChars s.data⟩

/-- `Runner.compareSnapshots`: normalize both documents, then exact equality. -/
def compareSnapshots (baseline current : String) : Bool :=
  normalizeHTML baseline = normalizeHTML current

/-- `escapeHTML`: five sequential `strings.ReplaceAll` calls.  The patterns
are single characters, the replacements entity strings. -/
def replaceCharByStr (a : Char) (rep : Chars) (s : Chars) : Chars :=
  (s.map fun c => if c = a then rep else [c]).flatten

def escapeHTML (s : String) : String :=
  ⟨replaceCharByStr (Char.ofNat 39) "&#39;".data
    (replaceCharByStr '"' "&quot;".data
      (replaceCharByStr '>' "&gt;".data
        (replaceCharByStr '<' "&lt;".data
          (replaceCharByStr '&' "&amp;".data s.data))))⟩

/-- `Runner.generateHTMLDiff`: a static page showing the two normalized,
entity-escaped documents.  Literal braces of the embedded CSS are written
with hexadecimal escapes. -/
def generateHTMLDiff (baseline current : String) : String :=
  "<!DOCTYPE html>\n<html>\n<head>\n    <title>Snapshot Diff</title>\n    <style>\n        body \x7b font-family: monospace; white-space: pre-wrap; \x7d\n        .added \x7b background-color: #90EE90; \x7d\n        .removed \x7b background-color: #FFB6C1; \x7d\n        .header \x7b font-weight: bold; margin: 20px 0 10px 0; \x7d\n    </style>\n</head>\n<body>\n    <div class=\"header\">Snapshot Diff</div>\n    <div class=\"header\">Expected:</div>\n    <div class=\"removed\">" ++
  escapeHTML (normalizeHTML baseline) ++
  "</div>\n    <div class=\"header\">Actual:</div>\n    <div class=\"added\">" ++
  escapeHTML (normalizeHTML current) ++
  "</div>\n</body>\n</html>"

/-! ## Data model of the runner -/

structure Step where
  action : String
  target : String
  value : String
deriving DecidableEq

structure Test where
  name : String
  steps : List Step
deriving DecidableEq

structure ConsoleError where
  message : String
  type : String
  timestamp : Nat
  url : String
deriving DecidableEq

/-- Errors produced on the paths of `runTest` that the embedding models.
`stepFailed` stands for any error value returned by `executeStep` (protocol
errors, assertion errors, visual-diff errors — all are `error` values in Go);
`consoleErrorsDetected n` is `fmt.Errorf("console errors detected: %d errors", n)`;
`browserNotStarted` is `fmt.Errorf("browser not started")`;
`initFailed` wraps `fmt.Errorf("failed to initialize browser: %v", err)`. -/
inductive RunError where
  | stepFailed (msg : String)
  | consoleErrorsDetected (n : Nat)
  | browserNotStarted
  | initFailed (msg : String)
deriving DecidableEq

structure Config where
  headless : Bool := true
  timeoutSeconds : Nat := 10
  failOnConsoleError : Bool := true
  errorFilter : Option (ConsoleError → Bool) := none
  screenshotDir : String := "__screenshots__"
  updateScreenshots : Bool := false
  screenshotThreshold : ℚ := 0
  snapshotDir : String := "__snapshots__"
  updateSnapshots : Bool := false

structure TestResult where
  name : String
  passed : Bool
  error : Option RunError
  errors : List ConsoleError
  -- `Duration` (wall-clock time) is not modelled.

/-- Per-test oracle for the parts of `runTest` performed by the browser:
whether the allocator context exists (`Runner.Start` was called), whether the
initial `about:blank` navigation fails, the outcome of `executeStep` for each
step, and the error-typed console events captured by the listener during the
test. -/
structure TestEnv where
  browserStarted : Bool
  initNavError : Option String
  stepResult : Step → Option RunError
  consoleEvents : List ConsoleError

/-- The console listener records an event unless
`r.config.ErrorFilter != nil && r.config.ErrorFilter(consoleErr)`. -/
def recordedConsoleErrors (cfg : Config) (events : List ConsoleError) : List ConsoleError :=
  events.filter fun e =>
    match cfg.errorFilter with
    | none => true
    | some f => !(f e)

/-- The step loop of `runTest`, instrumented with the list of steps that were
actually executed: run steps in order, stop at the first step whose execution
returns an error. -/
def runStepsTrace (exec : Step → Option RunError) : List Step → List Step × Option RunError
  | [] => ([], none)
  | s :: rest =>
    match exec s with
    | some e => ([s], some e)
    | none =>
      let r := runStepsTrace exec rest
      (s :: r.1, r.2)

/-- `Runner.runTest`: precondition check, initial navigation, step loop,
console-error verdict. -/
def runTest (cfg : Config) (env : TestEnv) (test : Test) : TestResult :=
  if env.browserStarted = false then
    { name := test.name, passed := false, error := some .browserNotStarted, errors := [] }
  else
    match env.initNavError with
    | some msg =>
      { name := test.name, passed := false, error := some (.initFailed msg), errors := [] }
    | none =>
      let stepErr := (runStepsTrace env.stepResult test.steps).2
      let errs := recordedConsoleErrors cfg env.consoleEvents
      if cfg.failOnConsoleError && !errs.isEmpty then
        { name := test.name, passed := false,
          error := some (stepErr.getD (.consoleErrorsDetected errs.length)), errors := errs }
      else
        { name := test.name, passed := stepErr.isNone, error := stepErr, errors := errs }

/-- `zs` is an interleaving of the streams `ls`: it is built by repeatedly
emitting the head of one of the streams.  Used both for the test channel
(which stream = which worker takes each queued test) and for the result
channel (order in which worker outputs arrive). -/
inductive MergeN {α : Type} : List (List α) → List α → Prop
  | nil (ls : List (List α)) (h : ∀ l ∈ ls, l = []) : MergeN ls []
  | cons (ls : List (List α)) (i : Nat) (x : α) (rest : List α) (zs : List α)
      (hi : ls[i]? = some (x :: rest))
      (htail : MergeN (ls.set i rest) zs) : MergeN ls (x :: zs)

/-- `numWorkers := 4` in `Runner.Run`. -/
def numWorkers : Nat := 4

/-- `Runner.Run` with `W` workers: the queued tests are split among the
workers (each worker receives a subsequence of the queue, and together the
workers drain it — `MergeN parts tests`), each worker maps `runTest` over its
share in order, and the collected result list is an interleaving of the
workers' output streams. -/
def RunRel (cfg : Config) (env : Test → TestEnv) (W : Nat)
    (tests : List Test) (results : List TestResult) : Prop :=
  ∃ parts : List (List Test),
    parts.length = W ∧
    MergeN parts tests ∧
    MergeN (parts.map fun p => p.map fun t => runTest cfg (env t) t) results

/-! ## Screenshot and snapshot filename resolution -/

/-- The sanitization of `takeScreenshot`/`takeSnapshot`: replace space, `/`
and `\` by `_` (three `strings.ReplaceAll` calls with single-char patterns). -/
def sanitizeChars (t : Chars) : Chars :=
  replaceChar '\\' '_' (replaceChar '/' '_' (replaceChar ' ' '_' t))

def sanitizeTestName (t : String) : String :=
  ⟨sanitizeChars t.data⟩

/-- Filename resolution of `takeScreenshot`: an empty filename is derived
from the sanitized test name plus the incremented per-test-name counter
(`r.screenshotCounter[testName]++` under the mutex); counter value 1 gives
`<safe>.png`, larger values `<safe>_<n>.png`.  A non-empty filename is used
verbatim and the counter is untouched. -/
def resolveScreenshotName (counter : String → Nat) (filename testName : String) :
    String × (String → Nat) :=
  if filename = "" then
    let safe := sanitizeTestName testName
    let c := counter testName + 1
    let counter1 := fun n => if n = testName then c else counter n
    (if c = 1 then safe ++ ".png" else safe ++ "_" ++ toString c ++ ".png", counter1)
  else
    (filename, counter)

/-- Filename resolution of `takeSnapshot` (same logic over
`r.snapshotCounter`, extension `.html`). -/
def resolveSnapshotName (counter : String → Nat) (filename testName : String) :
    String × (String → Nat) :=
  if filename = "" then
    let safe := sanitizeTestName testName
    let c := counter testName + 1
    let counter1 := fun n => if n = testName then c else counter n
    (if c = 1 then safe ++ ".html" else safe ++ "_" ++ toString c ++ ".html", counter1)
  else
    (filename, counter)

/-- Go `strings.TrimSuffix`. -/
def trimStrSuffix (s suf : String) : String :=
  if suf.data.isSuffixOf s.data then ⟨s.data.take (s.data.length - suf.data.length)⟩ else s

/-! ## Image comparison -/

/-- The 16-bit-per-channel view returned by Go `color.Color.RGBA()`. -/
structure RGBA where
  r : Nat
  g : Nat
  b : Nat
  a : Nat
deriving DecidableEq

/-- `image.Rectangle` bounds. -/
structure Bounds where
  minX : Int
  minY : Int
  maxX : Int
  maxY : Int
deriving DecidableEq

/-- A decoded image: bounds plus the pixel function (`img.At(x, y).RGBA()`). -/
structure Image where
  bounds : Bounds
  pixel : Int → Int → RGBA

/-- `colorsEqual`: exact equality of all four 16-bit channels. -/
def colorsEqual (c1 c2 : RGBA) : Bool :=
  c1.r == c2.r && c1.g == c2.g && c1.b == c2.b && c1.a == c2.a

/-- The coordinates visited by `for v := lo; v < hi; v += step`. -/
def stepCoords (lo hi : Int) (step : Nat) : List Int :=
  (List.range (((hi - lo).toNat + (step - 1)) / step)).map fun i => lo + step * i

/-- The sampling pass of `compareImages`: `true` iff some pixel on the
every-10th grid differs (the Go loop breaks at the first mismatch; only the
boolean outcome is observable). -/
def sampledMismatch (b c : Image) : Bool :=
  (stepCoords b.bounds.minY b.bounds.maxY 10).any fun y =>
    (stepCoords b.bounds.minX b.bounds.maxX 10).any fun x =>
      !colorsEqual (b.pixel x y) (c.pixel x y)

/-- Mismatched pixels in one row, `x` ranging over `[minX, maxX)`. -/
def rowMismatchCount (b c : Image) (y : Int) : Nat :=
  ((stepCoords b.bounds.minX b.bounds.maxX 1).filter fun x =>
    !colorsEqual (b.pixel x y) (c.pixel x y)).length

/-- Mismatched pixels in the band of rows `[startY, endY)`. -/
def bandMismatchCount (b c : Image) (startY endY : Int) : Nat :=
  ((stepCoords startY endY 1).map fun y => rowMismatchCount b c y).sum

/-- The full pass of `compareImages`: rows are split into `numWorkers = 4`
bands (`rowsPerWorker := bounds.Dy() / numWorkers`, the last band extended to
`bounds.Max.Y`); each band's mismatch count is accumulated into the global
counter.  Go `/` on int is truncated division; the operands here are
non-negative for decoded images, where it agrees with `Int.div`. -/
def totalMismatchCount (b c : Image) : Nat :=
  let rowsPerWorker : Int := Int.tdiv (b.bounds.maxY - b.bounds.minY) 4
  ((List.range 4).map fun w =>
    let startY := b.bounds.minY + w * rowsPerWorker
    let endY := if w = 3 then b.bounds.maxY else startY + rowsPerWorker
    bandMismatchCount b c startY endY).sum

/-- `color.RGBA{255, 0, 0, 255}.RGBA()`: the highlight for changed pixels. -/
def redPixel : RGBA := ⟨255 * 257, 0, 0, 255 * 257⟩

/-- The dimmed grayscale of a matching baseline pixel:
`gray := uint8((r1 + g1 + b1) / 3 / 256)` stored as
`color.RGBA{gray, gray, gray, 128}`. -/
def grayPixel (c1 : RGBA) : RGBA :=
  let gray := (c1.r + c1.g + c1.b) / 3 / 256 % 256
  ⟨gray * 257, gray * 257, gray * 257, 128 * 257⟩

def inBounds (bd : Bounds) (x y : Int) : Bool :=
  bd.minX ≤ x && x < bd.maxX && bd.minY ≤ y && y < bd.maxY

/-- The diff visualization built by the full pass: mismatched pixels red,
matching pixels dimmed grayscale of the baseline; pixels outside the bounds
keep the zero value of a fresh `image.RGBA`. -/
def mkDiffImage (b c : Image) : Image where
  bounds := b.bounds
  pixel := fun x y =>
    if inBounds b.bounds x y then
      if colorsEqual (b.pixel x y) (c.pixel x y) then grayPixel (b.pixel x y) else redPixel
    else ⟨0, 0, 0, 0⟩

/-- Observable outcome of `compareImages`, instrumented with which passes
ran: `diff` is the returned ratio (`float64`, modelled exactly in `ℚ`),
`diffImage` the optional visualization, `sampledPassRan` whether the
sampling loop was entered, `fullPassRan` whether the per-pixel loop ran. -/
structure CompareOutcome where
  diff : ℚ
  diffImage : Option Image
  sampledPassRan : Bool
  fullPassRan : Bool

/-- `Runner.compareImages`, with PNG decoding abstracted by `decode`.
Returns `none` when either input fails to decode (the error path).  Order of
checks as in the source: decode both, byte-equality fast path, dimension
check, sampling pass, full pass. -/
def compareImages (decode : Bytes → Option Image) (baseline current : Bytes) :
    Option CompareOutcome :=
  match decode baseline with
  | none => none
  | some bImg =>
    match decode current with
    | none => none
    | some cImg =>
      if baseline = current then
        some ⟨0, none, false, false⟩
      else if bImg.bounds ≠ cImg.bounds then
        some ⟨1, none, false, false⟩
      else if !sampledMismatch bImg cImg then
        some ⟨0, none, true, false⟩
      else
        let totalPixels :=
          ((bImg.bounds.maxX - bImg.bounds.minX).toNat *
           (bImg.bounds.maxY - bImg.bounds.minY).toNat : ℚ)
        some ⟨(totalMismatchCount bImg cImg : ℚ) / totalPixels,
              some (mkDiffImage bImg cImg), true, true⟩

/-! ## takeScreenshot / takeSnapshot against the filesystem -/

/-- A filesystem directory tree: path → file contents. -/
abbrev FS (β : Type) := String → Option β

def fsWrite {β : Type} (fs : FS β) (p : String) (content : β) : FS β :=
  fun q => if q = p then some content else fs q

/-- Oracles for the external image library calls of `takeScreenshot`. -/
structure ImageIO where
  decode : Bytes → Option Image
  encodePng : Image → Bytes

/-- Errors raised by the baseline-comparison part of `takeScreenshot`.
`baselineDiff` carries the data interpolated into
`"screenshot differs from baseline by %.2f%% (threshold: %.2f%%). Delete the
old screenshot at %s to save the new one"`. -/
inductive ScreenshotError where
  | compareFailed
  | baselineDiff (diffPercent thresholdPercent : ℚ) (baselinePath : String)
deriving DecidableEq

/-- Result of `takeScreenshot`: step error, updated counter map, updated
filesystem, and whether a comparison against a baseline was performed. -/
structure ScreenshotOutcome where
  error : Option ScreenshotError
  counter : String → Nat
  fs : FS Bytes
  compared : Bool

/-- `Runner.takeScreenshot` after the capture (`shot` is the freshly captured
PNG): resolve the filename, look the baseline up; if present, compare and on
divergence above the threshold write `<stem>.actual.png` and — only when a
diff image was produced — `<stem>.diff.png`, then fail; if absent, write the
capture as the new baseline and succeed. -/
def takeScreenshot (cfg : Config) (io : ImageIO) (counter : String → Nat)
    (fs : FS Bytes) (filename testName : String) (shot : Bytes) : ScreenshotOutcome :=
  let r := resolveScreenshotName counter filename testName
  let path := cfg.screenshotDir ++ "/" ++ r.1
  match fs path with
  | some baselineData =>
    match compareImages io.decode baselineData shot with
    | none => ⟨some .compareFailed, r.2, fs, true⟩
    | some out =>
      if out.diff > cfg.screenshotThreshold then
        let stem := trimStrSuffix path ".png"
        let fs1 := fsWrite fs (stem ++ ".actual.png") shot
        let fs2 :=
          match out.diffImage with
          | some d => fsWrite fs1 (stem ++ ".diff.png") (io.encodePng d)
          | none => fs1
        ⟨some (.baselineDiff (out.diff * 100) (cfg.screenshotThreshold * 100) path),
          r.2, fs2, true⟩
      else
        ⟨none, r.2, fs, true⟩
  | none =>
    ⟨none, r.2, fsWrite fs path shot, false⟩

/-- Error raised by `takeSnapshot` on a mismatch: `"snapshot differs from
baseline. Delete the old snapshot at %s to save the new one"`. -/
inductive SnapshotError where
  | snapshotDiff (baselinePath : String)
deriving DecidableEq

structure SnapshotOutcome where
  error : Option SnapshotError
  counter : String → Nat
  fs : FS String
  compared : Bool

/-- `Runner.takeSnapshot` after the HTML capture. -/
def takeSnapshot (cfg : Config) (counter : String → Nat) (fs : FS String)
    (filename testName : String) (html : String) : SnapshotOutcome :=
  let r := resolveSnapshotName counter filename testName
  let path := cfg.snapshotDir ++ "/" ++ r.1
  match fs path with
  | some baselineData =>
    if compareSnapshots baselineData html then
      ⟨none, r.2, fs, true⟩
    else
      let stem := trimStrSuffix path ".html"
      let fs1 := fsWrite fs (stem ++ ".actual.html") html
      let fs2 := fsWrite fs1 (stem ++ ".diff.html") (generateHTMLDiff baselineData html)
      ⟨some (.snapshotDiff path), r.2, fs2, true⟩
  | none =>
    ⟨none, r.2, fsWrite fs path html, false⟩

/-- The baseline path of a screenshot step:
`filepath.Join(r.config.ScreenshotDir, filename)` after filename
resolution. -/
def screenshotPath (cfg : Config) (counter : String → Nat) (filename testName : String) :
    String :=
  cfg.screenshotDir ++ "/" ++ (resolveScreenshotName counter filename testName).1

/-- `strings.TrimSuffix(path, ".png")`: the artifact stem. -/
def screenshotStem (cfg : Config) (counter : String → Nat) (filename testName : String) :
    String :=
  trimStrSuffix (screenshotPath cfg counter filename testName) ".png"

/-! ## Concrete oracle instances used by witnesses and counterexamples -/

def unitImage : Image := ⟨⟨0, 0, 1, 1⟩, fun _ _ => ⟨0, 0, 0, 65535⟩⟩

def wideImage : Image := ⟨⟨0, 0, 2, 1⟩, fun _ _ => ⟨0, 0, 0, 65535⟩⟩

def demoDecode : Bytes → Option Image := fun bs =>
  if bs = [0] then some unitImage
  else if bs = [1] then some unitImage
  else if bs = [2] then some wideImage
  else none

def demoEncode : Image → Bytes := fun _ => [9]

def demoIO : ImageIO := ⟨demoDecode, demoEncode⟩

def demoCfg : Config := { screenshotDir := "shots", snapshotDir := "snaps" }

def demoFS : FS Bytes := fun p => if p = "shots/t.png" then some [0] else none

/-! ## Lemmas: Go string primitives -/

theorem containsSeq_infix_iff (pat s : Chars) : containsSeq s pat = true ↔ pat <:+: s := by
  induction s with
  | nil =>
    by_cases h : pat = [] <;> simp [containsSeq, List.infix_nil, h]
  | cons c cs ih =>
    rw [containsSeq]
    by_cases h : (c :: cs).take pat.length = pat
    · rw [if_pos h]
      constructor
      · intro _
        exact (List.prefix_iff_eq_take.mpr h.symm).isInfix
      · intro _
        rfl
    · rw [if_neg h, ih, List.infix_cons_iff]
      constructor
      · exact Or.inr
      · rintro (hp | hi)
        · exact absurd (List.prefix_iff_eq_take.mp hp).symm h
        · exact hi

theorem containsSeq_false_mono {pat s t : Chars} (hst : t <:+: s)
    (h : containsSeq s pat = false) : containsSeq t pat = false := by
  cases hb : containsSeq t pat
  · rfl
  · have : pat <:+: s := ((containsSeq_infix_iff pat t).mp hb).trans hst
    rw [(containsSeq_infix_iff pat s).mpr this] at h
    simp at h

theorem containsSeq_tail_false {c : Char} {cs pat : Chars}
    (h : containsSeq (c :: cs) pat = false) : containsSeq cs pat = false :=
  containsSeq_false_mono (List.suffix_cons c cs).isInfix h

theorem containsSeq_cons_false (c : Char) (cs pat : Chars) :
    containsSeq (c :: cs) pat = false ↔
      ¬(c :: cs).take pat.length = pat ∧ containsSeq cs pat = false := by
  rw [containsSeq]
  by_cases h : (c :: cs).take pat.length = pat <;> simp [h]

theorem head?_eq_some_iff (l : Chars) (a : Char) : l.head? = some a ↔ ∃ t, l = a :: t := by
  cases l <;> simp

theorem take_two_eq (c : Char) (cs : Chars) (x y : Char) :
    (c :: cs).take 2 = [x, y] ↔ c = x ∧ ∃ t, cs = y :: t := by
  cases cs <;> simp [List.take]

theorem take_three_eq (c : Char) (cs : Chars) (x y z : Char) :
    (c :: cs).take 3 = [x, y, z] ↔ c = x ∧ ∃ t, cs = y :: z :: t := by
  rcases cs with _ | ⟨d, ds⟩
  · simp [List.take]
  · rcases ds with _ | ⟨e, es⟩ <;> simp [List.take]

theorem take2_ne_of_head (c : Char) (cs : Chars) (x y : Char) (h : c ≠ x) :
    (c :: cs).take 2 ≠ [x, y] := by
  intro hx
  exact h ((take_two_eq c cs x y).mp hx).1

theorem containsSeq_cons_true (c : Char) (cs pat : Chars) :
    containsSeq (c :: cs) pat = true ↔
      (c :: cs).take pat.length = pat ∨ containsSeq cs pat = true := by
  rw [containsSeq]
  by_cases h : (c :: cs).take pat.length = pat <;> simp [h]

/-! Unfold lemmas for the wildcard branches of the replacement scans.  The
hypothesis shape matches the one produced by functional induction. -/

theorem squeeze1_cons (c : Char) (rest : Chars)
    (h1 : ∀ r : Chars, c = ' ' → rest = ' ' :: r → False) :
    squeeze1 (c :: rest) = c :: squeeze1 rest := by
  rw [squeeze1.eq_def]
  split
  · simp_all
  · next r heq =>
    injection heq with h2 h3
    exact (h1 r h2 h3).elim
  · next c2 r heq =>
    injection heq with h2 h3
    subst h2
    subst h3
    rfl

theorem delGtSpLt_cons (c : Char) (rest : Chars)
    (h1 : ∀ r : Chars, c = '>' → rest = ' ' :: '<' :: r → False) :
    delGtSpLt (c :: rest) = c :: delGtSpLt rest := by
  rw [delGtSpLt.eq_def]
  split
  · simp_all
  · next r heq =>
    injection heq with h2 h3
    exact (h1 r h2 h3).elim
  · next c2 r heq =>
    injection heq with h2 h3
    subst h2
    subst h3
    rfl

theorem delSpaceAfterGt_cons (c : Char) (rest : Chars)
    (h1 : ∀ r : Chars, c = '>' → rest = ' ' :: r → False) :
    delSpaceAfterGt (c :: rest) = c :: delSpaceAfterGt rest := by
  rw [delSpaceAfterGt.eq_def]
  split
  · simp_all
  · next r heq =>
    injection heq with h2 h3
    exact (h1 r h2 h3).elim
  · next c2 r heq =>
    injection heq with h2 h3
    subst h2
    subst h3
    rfl

theorem delSpaceBeforeLt_cons (c : Char) (rest : Chars)
    (h1 : ∀ r : Chars, c = ' ' → rest = '<' :: r → False) :
    delSpaceBeforeLt (c :: rest) = c :: delSpaceBeforeLt rest := by
  rw [delSpaceBeforeLt.eq_def]
  split
  · simp_all
  · next r heq =>
    injection heq with h2 h3
    exact (h1 r h2 h3).elim
  · next c2 r heq =>
    injection heq with h2 h3
    subst h2
    subst h3
    rfl

theorem delGtSpLt_head (s : Chars) : (delGtSpLt s).head? = s.head? := by
  induction s using delGtSpLt.induct with
  | case1 => rfl
  | case2 rest ih => rfl
  | case3 c rest h1 ih =>
    rw [delGtSpLt_cons c rest h1]
    simp

theorem delSpaceAfterGt_head (s : Chars) : (delSpaceAfterGt s).head? = s.head? := by
  induction s using delSpaceAfterGt.induct with
  | case1 => rfl
  | case2 rest ih => rfl
  | case3 c rest h1 ih =>
    rw [delSpaceAfterGt_cons c rest h1]
    simp

theorem delSpaceBeforeLt_head (s : Chars) (a : Char)
    (h : (delSpaceBeforeLt s).head? = some a) :
    s.head? = some a ∨ (a = '<' ∧ s.head? = some ' ') := by
  induction s using delSpaceBeforeLt.induct with
  | case1 => simp [delSpaceBeforeLt] at h
  | case2 rest ih =>
    right
    refine ⟨?_, rfl⟩
    have : (delSpaceBeforeLt (' ' :: '<' :: rest)).head? = some '<' := rfl
    rw [this] at h
    injection h with h2
    exact h2.symm
  | case3 c rest h1 ih =>
    left
    rw [delSpaceBeforeLt_cons c rest h1] at h
    exact h

theorem squeeze1_sublist (s : Chars) : (squeeze1 s).Sublist s := by
  induction s using squeeze1.induct with
  | case1 => simp [squeeze1]
  | case2 rest ih =>
    rw [show squeeze1 (' ' :: ' ' :: rest) = ' ' :: squeeze1 rest from rfl]
    exact (ih.trans (List.sublist_cons_self ' ' rest)).cons₂ ' '
  | case3 c rest h1 ih =>
    rw [squeeze1_cons c rest h1]
    exact ih.cons₂ c

theorem delGtSpLt_sublist (s : Chars) : (delGtSpLt s).Sublist s := by
  induction s using delGtSpLt.induct with
  | case1 => simp [delGtSpLt]
  | case2 rest ih =>
    rw [show delGtSpLt ('>' :: ' ' :: '<' :: rest) = '>' :: '<' :: delGtSpLt rest from rfl]
    exact ((ih.cons₂ '<').trans ((List.sublist_cons_self ' ' ('<' :: rest)))).cons₂ '>'
  | case3 c rest h1 ih =>
    rw [delGtSpLt_cons c rest h1]
    exact ih.cons₂ c

theorem delSpaceAfterGt_sublist (s : Chars) : (delSpaceAfterGt s).Sublist s := by
  induction s using delSpaceAfterGt.induct with
  | case1 => simp [delSpaceAfterGt]
  | case2 rest ih =>
    rw [show delSpaceAfterGt ('>' :: ' ' :: rest) = '>' :: delSpaceAfterGt rest from rfl]
    exact (ih.trans (List.sublist_cons_self ' ' rest)).cons₂ '>'
  | case3 c rest h1 ih =>
    rw [delSpaceAfterGt_cons c rest h1]
    exact ih.cons₂ c

theorem delSpaceBeforeLt_sublist (s : Chars) : (delSpaceBeforeLt s).Sublist s := by
  induction s using delSpaceBeforeLt.induct with
  | case1 => simp [delSpaceBeforeLt]
  | case2 rest ih =>
    rw [show delSpaceBeforeLt (' ' :: '<' :: rest) = '<' :: delSpaceBeforeLt rest from rfl]
    exact (ih.cons₂ '<').cons ' '
  | case3 c rest h1 ih =>
    rw [delSpaceBeforeLt_cons c rest h1]
    exact ih.cons₂ c

theorem squeeze1_length_le (s : Chars) : (squeeze1 s).length ≤ s.length :=
  (squeeze1_sublist s).length_le

theorem squeeze1_length_lt (s : Chars) (h : containsSeq s [' ', ' '] = true) :
    (squeeze1 s).length < s.length := by
  induction s using squeeze1.induct with
  | case1 => simp [containsSeq] at h
  | case2 rest ih =>
    rw [show squeeze1 (' ' :: ' ' :: rest) = ' ' :: squeeze1 rest from rfl]
    have := squeeze1_length_le rest
    simp only [List.length_cons]
    omega
  | case3 c rest h1 ih =>
    rcases (containsSeq_cons_true c rest [' ', ' ']).mp h with hx | hx
    · obtain ⟨hc, r, hr⟩ := (take_two_eq c rest ' ' ' ').mp hx
      exact (h1 r hc hr).elim
    · rw [squeeze1_cons c rest h1]
      have := ih hx
      simp only [List.length_cons]
      omega

theorem collapseLoop_noDS : ∀ (n : Nat) (s : Chars), s.length ≤ n →
    containsSeq (collapseLoop n s) [' ', ' '] = false := by
  intro n
  induction n with
  | zero =>
    intro s h
    have : s = [] := List.length_eq_zero.mp (Nat.le_zero.mp h)
    subst this
    simp [collapseLoop, containsSeq]
  | succ n ih =>
    intro s h
    rw [collapseLoop]
    by_cases hg : containsSeq s [' ', ' '] = true
    · rw [if_pos hg]
      exact ih _ (by have := squeeze1_length_lt s hg; omega)
    · rw [if_neg hg]
      cases hb : containsSeq s [' ', ' ']
      · rfl
      · exact absurd hb hg

theorem collapseSpaces_noDS (s : Chars) :
    containsSeq (collapseSpaces s) [' ', ' '] = false :=
  collapseLoop_noDS s.length s le_rfl

theorem collapseLoop_id {s : Chars} (n : Nat) (h : containsSeq s [' ', ' '] = false) :
    collapseLoop n s = s := by
  cases n with
  | zero => rfl
  | succ n =>
    rw [collapseLoop, if_neg (by rw [h]; exact Bool.false_ne_true)]

theorem collapseSpaces_id {s : Chars} (h : containsSeq s [' ', ' '] = false) :
    collapseSpaces s = s :=
  collapseLoop_id s.length h

theorem collapseLoop_sublist : ∀ (n : Nat) (s : Chars), (collapseLoop n s).Sublist s := by
  intro n
  induction n with
  | zero => intro s; exact List.Sublist.refl s
  | succ n ih =>
    intro s
    rw [collapseLoop]
    by_cases hg : containsSeq s [' ', ' '] = true
    · rw [if_pos hg]
      exact (ih (squeeze1 s)).trans (squeeze1_sublist s)
    · rw [if_neg hg]

theorem collapseSpaces_sublist (s : Chars) : (collapseSpaces s).Sublist s :=
  collapseLoop_sublist s.length s

/-! ## Lemmas: preservation of normal-form properties by the tag-boundary
replacements -/

theorem delGtSpLt_noDS (s : Chars) (h : containsSeq s [' ', ' '] = false) :
    containsSeq (delGtSpLt s) [' ', ' '] = false := by
  induction s using delGtSpLt.induct with
  | case1 => simpa using h
  | case2 rest ih =>
    have hrest : containsSeq rest [' ', ' '] = false :=
      containsSeq_tail_false (containsSeq_tail_false (containsSeq_tail_false h))
    rw [show delGtSpLt ('>' :: ' ' :: '<' :: rest) = '>' :: '<' :: delGtSpLt rest from rfl]
    rw [containsSeq_cons_false]
    refine ⟨take2_ne_of_head _ _ _ _ (by decide), ?_⟩
    rw [containsSeq_cons_false]
    exact ⟨take2_ne_of_head _ _ _ _ (by decide), ih hrest⟩
  | case3 c rest h1 ih =>
    rw [delGtSpLt_cons c rest h1, containsSeq_cons_false]
    refine ⟨?_, ih (containsSeq_tail_false h)⟩
    intro hx
    obtain ⟨hc, t, ht⟩ := (take_two_eq c (delGtSpLt rest) ' ' ' ').mp hx
    have hh : rest.head? = some ' ' := by
      rw [← delGtSpLt_head rest, ht]
      rfl
    obtain ⟨r2, hr2⟩ := (head?_eq_some_iff rest ' ').mp hh
    subst hc
    subst hr2
    have hcon : containsSeq (' ' :: ' ' :: r2) [' ', ' '] = true := by
      rw [containsSeq_cons_true]
      exact Or.inl rfl
    rw [hcon] at h
    simp at h

theorem delSpaceAfterGt_noDS (s : Chars) (h : containsSeq s [' ', ' '] = false) :
    containsSeq (delSpaceAfterGt s) [' ', ' '] = false := by
  induction s using delSpaceAfterGt.induct with
  | case1 => simpa using h
  | case2 rest ih =>
    have hrest : containsSeq rest [' ', ' '] = false :=
      containsSeq_tail_false (containsSeq_tail_false h)
    rw [show delSpaceAfterGt ('>' :: ' ' :: rest) = '>' :: delSpaceAfterGt rest from rfl]
    rw [containsSeq_cons_false]
    exact ⟨take2_ne_of_head _ _ _ _ (by decide), ih hrest⟩
  | case3 c rest h1 ih =>
    rw [delSpaceAfterGt_cons c rest h1, containsSeq_cons_false]
    refine ⟨?_, ih (containsSeq_tail_false h)⟩
    intro hx
    obtain ⟨hc, t, ht⟩ := (take_two_eq c (delSpaceAfterGt rest) ' ' ' ').mp hx
    have hh : rest.head? = some ' ' := by
      rw [← delSpaceAfterGt_head rest, ht]
      rfl
    obtain ⟨r2, hr2⟩ := (head?_eq_some_iff rest ' ').mp hh
    subst hc
    subst hr2
    have hcon : containsSeq (' ' :: ' ' :: r2) [' ', ' '] = true := by
      rw [containsSeq_cons_true]
      exact Or.inl rfl
    rw [hcon] at h
    simp at h

theorem delSpaceAfterGt_noGtSp (s : Chars) (h : containsSeq s [' ', ' '] = false) :
    containsSeq (delSpaceAfterGt s) ['>', ' '] = false := by
  induction s using delSpaceAfterGt.induct with
  | case1 => decide
  | case2 rest ih =>
    have hrest : containsSeq rest [' ', ' '] = false :=
      containsSeq_tail_false (containsSeq_tail_false h)
    rw [show delSpaceAfterGt ('>' :: ' ' :: rest) = '>' :: delSpaceAfterGt rest from rfl]
    rw [containsSeq_cons_false]
    refine ⟨?_, ih hrest⟩
    intro hx
    obtain ⟨-, t, ht⟩ := (take_two_eq '>' (delSpaceAfterGt rest) '>' ' ').mp hx
    have hh : rest.head? = some ' ' := by
      rw [← delSpaceAfterGt_head rest, ht]
      rfl
    obtain ⟨r2, hr2⟩ := (head?_eq_some_iff rest ' ').mp hh
    subst hr2
    have hks : containsSeq (' ' :: ' ' :: r2) [' ', ' '] = false := containsSeq_tail_false h
    have hcon : containsSeq (' ' :: ' ' :: r2) [' ', ' '] = true := by
      rw [containsSeq_cons_true]
      exact Or.inl rfl
    rw [hcon] at hks
    simp at hks
  | case3 c rest h1 ih =>
    rw [delSpaceAfterGt_cons c rest h1, containsSeq_cons_false]
    refine ⟨?_, ih (containsSeq_tail_false h)⟩
    intro hx
    obtain ⟨hc, t, ht⟩ := (take_two_eq c (delSpaceAfterGt rest) '>' ' ').mp hx
    have hh : rest.head? = some ' ' := by
      rw [← delSpaceAfterGt_head rest, ht]
      rfl
    obtain ⟨r2, hr2⟩ := (head?_eq_some_iff rest ' ').mp hh
    exact h1 r2 hc hr2

theorem delSpaceBeforeLt_noDS (s : Chars) (h : containsSeq s [' ', ' '] = false) :
    containsSeq (delSpaceBeforeLt s) [' ', ' '] = false := by
  induction s using delSpaceBeforeLt.induct with
  | case1 => simpa using h
  | case2 rest ih =>
    have hrest : containsSeq rest [' ', ' '] = false :=
      containsSeq_tail_false (containsSeq_tail_false h)
    rw [show delSpaceBeforeLt (' ' :: '<' :: rest) = '<' :: delSpaceBeforeLt rest from rfl]
    rw [containsSeq_cons_false]
    exact ⟨take2_ne_of_head _ _ _ _ (by decide), ih hrest⟩
  | case3 c rest h1 ih =>
    rw [delSpaceBeforeLt_cons c rest h1, containsSeq_cons_false]
    refine ⟨?_, ih (containsSeq_tail_false h)⟩
    intro hx
    obtain ⟨hc, t, ht⟩ := (take_two_eq c (delSpaceBeforeLt rest) ' ' ' ').mp hx
    have hh : (delSpaceBeforeLt rest).head? = some ' ' := by
      rw [ht]
      rfl
    rcases delSpaceBeforeLt_head rest ' ' hh with hr | ⟨hlt, -⟩
    · obtain ⟨r2, hr2⟩ := (head?_eq_some_iff rest ' ').mp hr
      subst hc
      subst hr2
      have hcon : containsSeq (' ' :: ' ' :: r2) [' ', ' '] = true := by
        rw [containsSeq_cons_true]
        exact Or.inl rfl
      rw [hcon] at h
      simp at h
    · exact absurd hlt (by decide)

theorem delSpaceBeforeLt_noGtSp (s : Chars) (hds : containsSeq s [' ', ' '] = false)
    (h : containsSeq s ['>', ' '] = false) :
    containsSeq (delSpaceBeforeLt s) ['>', ' '] = false := by
  induction s using delSpaceBeforeLt.induct with
  | case1 => simpa using h
  | case2 rest ih =>
    have hds2 : containsSeq rest [' ', ' '] = false :=
      containsSeq_tail_false (containsSeq_tail_false hds)
    have h2 : containsSeq rest ['>', ' '] = false :=
      containsSeq_tail_false (containsSeq_tail_false h)
    rw [show delSpaceBeforeLt (' ' :: '<' :: rest) = '<' :: delSpaceBeforeLt rest from rfl]
    rw [containsSeq_cons_false]
    exact ⟨take2_ne_of_head _ _ _ _ (by decide), ih hds2 h2⟩
  | case3 c rest h1 ih =>
    rw [delSpaceBeforeLt_cons c rest h1, containsSeq_cons_false]
    refine ⟨?_, ih (containsSeq_tail_false hds) (containsSeq_tail_false h)⟩
    intro hx
    obtain ⟨hc, t, ht⟩ := (take_two_eq c (delSpaceBeforeLt rest) '>' ' ').mp hx
    have hh : (delSpaceBeforeLt rest).head? = some ' ' := by
      rw [ht]
      rfl
    rcases delSpaceBeforeLt_head rest ' ' hh with hr | ⟨hlt, -⟩
    · obtain ⟨r2, hr2⟩ := (head?_eq_some_iff rest ' ').mp hr
      subst hc
      subst hr2
      have hcon : containsSeq ('>' :: ' ' :: r2) ['>', ' '] = true := by
        rw [containsSeq_cons_true]
        exact Or.inl rfl
      rw [hcon] at h
      simp at h
    · exact absurd hlt (by decide)

theorem delSpaceBeforeLt_noSpLt (s : Chars) (h : containsSeq s [' ', ' '] = false) :
    containsSeq (delSpaceBeforeLt s) [' ', '<'] = false := by
  induction s using delSpaceBeforeLt.induct with
  | case1 => decide
  | case2 rest ih =>
    have hrest : containsSeq rest [' ', ' '] = false :=
      containsSeq_tail_false (containsSeq_tail_false h)
    rw [show delSpaceBeforeLt (' ' :: '<' :: rest) = '<' :: delSpaceBeforeLt rest from rfl]
    rw [containsSeq_cons_false]
    exact ⟨take2_ne_of_head _ _ _ _ (by decide), ih hrest⟩
  | case3 c rest h1 ih =>
    rw [delSpaceBeforeLt_cons c rest h1, containsSeq_cons_false]
    refine ⟨?_, ih (containsSeq_tail_false h)⟩
    intro hx
    obtain ⟨hc, t, ht⟩ := (take_two_eq c (delSpaceBeforeLt rest) ' ' '<').mp hx
    have hh : (delSpaceBeforeLt rest).head? = some '<' := by
      rw [ht]
      rfl
    rcases delSpaceBeforeLt_head rest '<' hh with hr | ⟨-, hsp⟩
    · obtain ⟨r2, hr2⟩ := (head?_eq_some_iff rest '<').mp hr
      exact h1 r2 hc hr2
    · obtain ⟨r2, hr2⟩ := (head?_eq_some_iff rest ' ').mp hsp
      subst hc
      subst hr2
      have hcon : containsSeq (' ' :: ' ' :: r2) [' ', ' '] = true := by
        rw [containsSeq_cons_true]
        exact Or.inl rfl
      rw [hcon] at h
      simp at h

/-! ## Lemmas: identity of each stage on already-normalized strings -/

theorem delGtSpLt_id {s : Chars} (h : containsSeq s ['>', ' ', '<'] = false) :
    delGtSpLt s = s := by
  induction s using delGtSpLt.induct with
  | case1 => rfl
  | case2 rest ih =>
    have hcon : containsSeq ('>' :: ' ' :: '<' :: rest) ['>', ' ', '<'] = true := by
      rw [containsSeq_cons_true]
      exact Or.inl rfl
    rw [hcon] at h
    simp at h
  | case3 c rest h1 ih =>
    rw [delGtSpLt_cons c rest h1, ih (containsSeq_tail_false h)]

theorem delSpaceAfterGt_id {s : Chars} (h : containsSeq s ['>', ' '] = false) :
    delSpaceAfterGt s = s := by
  induction s using delSpaceAfterGt.induct with
  | case1 => rfl
  | case2 rest ih =>
    have hcon : containsSeq ('>' :: ' ' :: rest) ['>', ' '] = true := by
      rw [containsSeq_cons_true]
      exact Or.inl rfl
    rw [hcon] at h
    simp at h
  | case3 c rest h1 ih =>
    rw [delSpaceAfterGt_cons c rest h1, ih (containsSeq_tail_false h)]

theorem delSpaceBeforeLt_id {s : Chars} (h : containsSeq s [' ', '<'] = false) :
    delSpaceBeforeLt s = s := by
  induction s using delSpaceBeforeLt.induct with
  | case1 => rfl
  | case2 rest ih =>
    have hcon : containsSeq (' ' :: '<' :: rest) [' ', '<'] = true := by
      rw [containsSeq_cons_true]
      exact Or.inl rfl
    rw [hcon] at h
    simp at h
  | case3 c rest h1 ih =>
    rw [delSpaceBeforeLt_cons c rest h1, ih (containsSeq_tail_false h)]

theorem noGtSpLt_of_noGtSp {s : Chars} (h : containsSeq s ['>', ' '] = false) :
    containsSeq s ['>', ' ', '<'] = false := by
  cases hb : containsSeq s ['>', ' ', '<']
  · rfl
  · have hi : ['>', ' ', '<'] <:+: s := (containsSeq_infix_iff _ s).mp hb
    have h2 : ['>', ' '] <:+: s := (List.IsPrefix.isInfix ⟨['<'], rfl⟩).trans hi
    rw [(containsSeq_infix_iff _ s).mpr h2] at h
    simp at h

/-! ## Lemmas: replaceChar and trimSpace -/

theorem replaceChar_not_mem (a b : Char) (s : Chars) (h : b ≠ a) :
    a ∉ replaceChar a b s := by
  intro hm
  rw [replaceChar, List.mem_map] at hm
  obtain ⟨c, _, hc⟩ := hm
  by_cases hca : c = a
  · rw [if_pos hca] at hc
    exact h hc
  · rw [if_neg hca] at hc
    exact hca hc

theorem replaceChar_preserves_not_mem (a b x : Char) (s : Chars)
    (hx : x ∉ s) (hb : x ≠ b) : x ∉ replaceChar a b s := by
  intro hm
  rw [replaceChar, List.mem_map] at hm
  obtain ⟨c, hcs, hc⟩ := hm
  by_cases hca : c = a
  · rw [if_pos hca] at hc
    exact hb hc.symm
  · rw [if_neg hca] at hc
    exact hx (hc ▸ hcs)

theorem replaceChar_id {a b : Char} {s : Chars} (h : a ∉ s) :
    replaceChar a b s = s := by
  induction s with
  | nil => rfl
  | cons c cs ih =>
    have hca : c ≠ a := fun hc => h (hc ▸ List.mem_cons_self c cs)
    have htl : a ∉ cs := fun hm => h (List.mem_cons_of_mem c hm)
    rw [replaceChar] at ih ⊢
    simp only [List.map_cons, if_neg hca, ih htl]

theorem trimSpace_infix_self (s : Chars) : trimSpace s <:+: s :=
  (List.rdropWhile_prefix goIsSpace (s.dropWhile goIsSpace)).isInfix.trans
    (List.dropWhile_suffix goIsSpace).isInfix

theorem trimSpace_head_not_space (s : Chars) (a : Char)
    (h : (trimSpace s).head? = some a) : goIsSpace a = false := by
  obtain ⟨t, ht⟩ := (head?_eq_some_iff _ a).mp h
  obtain ⟨t2, ht2⟩ := List.rdropWhile_prefix goIsSpace (s.dropWhile goIsSpace)
  have hd : s.dropWhile goIsSpace = a :: (t ++ t2) := by
    rw [← ht2, show List.rdropWhile goIsSpace (s.dropWhile goIsSpace) = trimSpace s from rfl,
      ht]
    rfl
  have hne : s.dropWhile goIsSpace ≠ [] := by
    rw [hd]
    simp
  have hnot := List.head_dropWhile_not goIsSpace s hne
  have hsome : (s.dropWhile goIsSpace).head? = some a := by
    rw [hd]
    rfl
  have h1 := List.head?_eq_head hne
  rw [hsome] at h1
  injection h1 with h4
  rw [h4]
  exact hnot

theorem trimSpace_getLast_not_space (s : Chars) (a : Char)
    (h : (trimSpace s).getLast? = some a) : goIsSpace a = false := by
  have hne : trimSpace s ≠ [] := by
    intro hnil
    rw [hnil] at h
    simp at h
  have h2 := List.rdropWhile_last_not goIsSpace (s.dropWhile goIsSpace) hne
  have h2a : ¬goIsSpace ((trimSpace s).getLast hne) = true := h2
  have h3 := List.getLast?_eq_getLast _ hne
  rw [h] at h3
  injection h3 with h4
  rw [← h4] at h2a
  cases hb : goIsSpace a
  · rfl
  · exact absurd hb h2a

theorem trimSpace_id {s : Chars}
    (hh : ∀ a, s.head? = some a → goIsSpace a = false)
    (hl : ∀ a, s.getLast? = some a → goIsSpace a = false) :
    trimSpace s = s := by
  have h1 : s.dropWhile goIsSpace = s := by
    cases s with
    | nil => rfl
    | cons c cs =>
      have := hh c rfl
      rw [List.dropWhile_cons, if_neg (by rw [this]; exact Bool.false_ne_true)]
  rw [trimSpace, h1, List.rdropWhile_eq_self_iff]
  intro hne
  have h2 := List.getLast?_eq_getLast s hne
  have h3 := hl _ h2
  rw [h3]
  exact Bool.false_ne_true

/-! ## normalizeHTML: image is normalized, normalized strings are fixed -/

theorem normalizeHTMLChars_normalized (s : Chars) :
    NormalizedHTML (normalizeHTMLChars s) := by
  rw [normalizeHTMLChars]
  generalize hs : replaceChar '\t' ' ' (replaceChar '\r' ' ' (replaceChar '\n' ' ' s)) = a3
  have hn3 : '\n' ∉ a3 := by
    rw [← hs]
    exact replaceChar_preserves_not_mem _ _ _ _
      (replaceChar_preserves_not_mem _ _ _ _
        (replaceChar_not_mem _ _ _ (by decide)) (by decide)) (by decide)
  have hr3 : '\r' ∉ a3 := by
    rw [← hs]
    exact replaceChar_preserves_not_mem _ _ _ _
      (replaceChar_not_mem _ _ _ (by decide)) (by decide)
  have ht3 : '\t' ∉ a3 := by
    rw [← hs]
    exact replaceChar_not_mem _ _ _ (by decide)
  generalize hb : collapseSpaces a3 = b
  have hbDS : containsSeq b [' ', ' '] = false := hb ▸ collapseSpaces_noDS a3
  have hbSub : b.Sublist a3 := hb ▸ collapseSpaces_sublist a3
  generalize hc1 : delGtSpLt b = c1
  have hc1DS : containsSeq c1 [' ', ' '] = false := hc1 ▸ delGtSpLt_noDS b hbDS
  have hc1Sub : c1.Sublist b := hc1 ▸ delGtSpLt_sublist b
  generalize hc2 : delSpaceAfterGt c1 = c2
  have hc2DS : containsSeq c2 [' ', ' '] = false := hc2 ▸ delSpaceAfterGt_noDS c1 hc1DS
  have hc2GtSp : containsSeq c2 ['>', ' '] = false := hc2 ▸ delSpaceAfterGt_noGtSp c1 hc1DS
  have hc2Sub : c2.Sublist c1 := hc2 ▸ delSpaceAfterGt_sublist c1
  generalize hc3 : delSpaceBeforeLt c2 = c3
  have hc3DS : containsSeq c3 [' ', ' '] = false := hc3 ▸ delSpaceBeforeLt_noDS c2 hc2DS
  have hc3GtSp : containsSeq c3 ['>', ' '] = false :=
    hc3 ▸ delSpaceBeforeLt_noGtSp c2 hc2DS hc2GtSp
  have hc3SpLt : containsSeq c3 [' ', '<'] = false := hc3 ▸ delSpaceBeforeLt_noSpLt c2 hc2DS
  have hc3Sub : c3.Sublist a3 :=
    ((hc3 ▸ delSpaceBeforeLt_sublist c2).trans hc2Sub).trans (hc1Sub.trans hbSub)
  have htInfix := trimSpace_infix_self c3
  have htSub : (trimSpace c3).Sublist c3 := htInfix.sublist
  refine ⟨?_, ?_, ?_, ?_, ?_, ?_, ?_, ?_⟩
  · exact fun hm => hn3 (hc3Sub.subset (htSub.subset hm))
  · exact fun hm => hr3 (hc3Sub.subset (htSub.subset hm))
  · exact fun hm => ht3 (hc3Sub.subset (htSub.subset hm))
  · exact containsSeq_false_mono htInfix hc3DS
  · exact containsSeq_false_mono htInfix hc3GtSp
  · exact containsSeq_false_mono htInfix hc3SpLt
  · exact trimSpace_head_not_space c3
  · exact trimSpace_getLast_not_space c3

theorem normalizeHTMLChars_of_normalized {s : Chars} (h : NormalizedHTML s) :
    normalizeHTMLChars s = s := by
  obtain ⟨hn, hr, ht, hDS, hGtSp, hSpLt, hh, hl⟩ := h
  rw [normalizeHTMLChars, replaceChar_id hn, replaceChar_id hr, replaceChar_id ht,
    collapseSpaces_id hDS, delGtSpLt_id (noGtSpLt_of_noGtSp hGtSp),
    delSpaceAfterGt_id hGtSp, delSpaceBeforeLt_id hSpLt, trimSpace_id hh hl]

theorem normalizeHTMLChars_idem (s : Chars) :
    normalizeHTMLChars (normalizeHTMLChars s) = normalizeHTMLChars s :=
  normalizeHTMLChars_of_normalized (normalizeHTMLChars_normalized s)

/-! ## Lemmas: step loop -/

theorem runStepsTrace_all_ok (exec : Step → Option RunError) (steps : List Step)
    (h : ∀ s ∈ steps, exec s = none) :
    runStepsTrace exec steps = (steps, none) := by
  induction steps with
  | nil => rfl
  | cons s rest ih =>
    have hs : exec s = none := h s (List.mem_cons_self s rest)
    have hrest : ∀ x ∈ rest, exec x = none := fun x hx => h x (List.mem_cons_of_mem s hx)
    rw [runStepsTrace, hs]
    simp [ih hrest]

theorem runStepsTrace_fail (exec : Step → Option RunError) (pre post : List Step)
    (f : Step) (e : RunError)
    (hpre : ∀ s ∈ pre, exec s = none) (hf : exec f = some e) :
    runStepsTrace exec (pre ++ f :: post) = (pre ++ [f], some e) := by
  induction pre with
  | nil =>
    simp only [List.nil_append]
    rw [runStepsTrace, hf]
  | cons s rest ih =>
    have hs : exec s = none := hpre s (List.mem_cons_self s rest)
    have hrest : ∀ x ∈ rest, exec x = none := fun x hx => hpre x (List.mem_cons_of_mem s hx)
    simp only [List.cons_append]
    rw [runStepsTrace, hs]
    simp [ih hrest]

/-! ## Lemmas: the worker-pool relation -/

theorem flatten_set_perm {α : Type} :
    ∀ (ls : List (List α)) (i : Nat) (x : α) (rest : List α),
      ls[i]? = some (x :: rest) → ls.flatten.Perm (x :: (ls.set i rest).flatten) := by
  intro ls
  induction ls with
  | nil =>
    intro i x rest h
    simp at h
  | cons l t ih =>
    intro i x rest h
    cases i with
    | zero =>
      simp only [List.getElem?_cons_zero, Option.some.injEq] at h
      subst h
      simp
    | succ n =>
      simp only [List.getElem?_cons_succ] at h
      have hp := ih n x rest h
      simp only [List.set_cons_succ, List.flatten_cons]
      exact (hp.append_left l).trans List.perm_middle

theorem mergeN_flatten_perm {α : Type} {ls : List (List α)} {zs : List α}
    (h : MergeN ls zs) : zs.Perm ls.flatten := by
  induction h with
  | nil ls h =>
    rw [List.flatten_eq_nil_iff.mpr h]
  | cons ls i x rest zs hi htail ih =>
    exact (ih.cons x).trans (flatten_set_perm ls i x rest hi).symm

theorem mergeN_self {α : Type} (l : List α) (k : Nat) :
    MergeN (l :: List.replicate k []) l := by
  induction l with
  | nil =>
    refine MergeN.nil _ ?_
    intro x hx
    rcases List.mem_cons.mp hx with h | h
    · exact h
    · exact List.eq_of_mem_replicate h
  | cons x xs ih =>
    refine MergeN.cons _ 0 x xs _ (by simp) ?_
    simpa using ih

/-- Any outcome of the worker pool is a permutation of mapping `runTest`
over the submitted tests: each test is executed exactly once, by whichever
worker took it from the queue, and contributes exactly its own result. -/
theorem runRel_perm {cfg : Config} {env : Test → TestEnv} {W : Nat}
    {tests : List Test} {results : List TestResult} (h : RunRel cfg env W tests results) :
    results.Perm (tests.map fun t => runTest cfg (env t) t) := by
  obtain ⟨parts, hlen, htests, hres⟩ := h
  have h1 := mergeN_flatten_perm hres
  have h2 := mergeN_flatten_perm htests
  have h3 := h2.map fun t => runTest cfg (env t) t
  rw [List.map_flatten] at h3
  exact h1.trans h3.symm

/-- The worker pool has at least one completing schedule: the one where the
first worker takes every test. -/
theorem runRel_exists (cfg : Config) (env : Test → TestEnv) (W : Nat)
    (tests : List Test) (hW : 0 < W) :
    RunRel cfg env W tests (tests.map fun t => runTest cfg (env t) t) := by
  refine ⟨tests :: List.replicate (W - 1) [], ?_, mergeN_self tests (W - 1), ?_⟩
  · simp
    omega
  · have heq : (tests :: List.replicate (W - 1) ([] : List Test)).map
        (fun p => p.map fun t => runTest cfg (env t) t)
        = (tests.map fun t => runTest cfg (env t) t) :: List.replicate (W - 1) [] := by
      simp [List.map_replicate]
    rw [heq]
    exact mergeN_self _ _

/-! ## Lemmas: runTest case analysis -/

theorem runTest_not_started (cfg : Config) (env : TestEnv) (test : Test)
    (h : env.browserStarted = false) :
    runTest cfg env test = ⟨test.name, false, some .browserNotStarted, []⟩ := by
  rw [runTest, h]
  simp

theorem runTest_init_failed (cfg : Config) (env : TestEnv) (test : Test) (msg : String)
    (hstart : env.browserStarted = true) (h : env.initNavError = some msg) :
    runTest cfg env test = ⟨test.name, false, some (.initFailed msg), []⟩ := by
  rw [runTest, hstart, h]
  simp

theorem runTest_normal (cfg : Config) (env : TestEnv) (test : Test)
    (hstart : env.browserStarted = true) (hinit : env.initNavError = none) :
    runTest cfg env test =
      (if cfg.failOnConsoleError && !(recordedConsoleErrors cfg env.consoleEvents).isEmpty then
        { name := test.name, passed := false,
          error := some (((runStepsTrace env.stepResult test.steps).2).getD
            (.consoleErrorsDetected (recordedConsoleErrors cfg env.consoleEvents).length)),
          errors := recordedConsoleErrors cfg env.consoleEvents }
      else
        { name := test.name, passed := ((runStepsTrace env.stepResult test.steps).2).isNone,
          error := (runStepsTrace env.stepResult test.steps).2,
          errors := recordedConsoleErrors cfg env.consoleEvents }) := by
  rw [runTest, hstart, hinit]
  simp

theorem recordedConsoleErrors_suppressed (cfg : Config) (p : ConsoleError → Bool)
    (hp : cfg.errorFilter = some p) (evs : List ConsoleError)
    (hall : ∀ ev ∈ evs, p ev = true) :
    recordedConsoleErrors cfg evs = [] := by
  rw [recordedConsoleErrors]
  rw [List.filter_eq_nil_iff]
  intro ev hev
  rw [hp]
  simp [hall ev hev]

/-! ## Claim theorems -/

/-- C1: for every test the step loop executes the steps strictly in listed
order and stops at the first step whose execution returns an error.  When
the steps are `pre ++ f :: post` with every step of `pre` succeeding and `f`
failing with error `e`: exactly `pre ++ [f]` is executed (no step of `post`
runs), the emitted `TestResult` has `passed = false` and its `error` is
exactly `e`.  Sibling tests are unaffected: in every worker-pool outcome of
a test list containing this test, the results are exactly (a permutation of)
each test's own `runTest` result. -/
theorem C1_step_loop_fail_fast (cfg : Config) (env : TestEnv) (test : Test)
    (pre post : List Step) (f : Step) (e : RunError)
    (hsteps : test.steps = pre ++ f :: post)
    (hpre : ∀ s ∈ pre, env.stepResult s = none)
    (hf : env.stepResult f = some e)
    (hstart : env.browserStarted = true)
    (hinit : env.initNavError = none) :
    (runStepsTrace env.stepResult test.steps).1 = pre ++ [f] ∧
    (runTest cfg env test).passed = false ∧
    (runTest cfg env test).error = some e ∧
    ∀ (envs : Test → TestEnv) (W : Nat) (ts1 ts2 : List Test) (results : List TestResult),
      RunRel cfg envs W (ts1 ++ test :: ts2) results →
      results.Perm ((ts1 ++ test :: ts2).map fun t => runTest cfg (envs t) t) := by
  have htrace := runStepsTrace_fail env.stepResult pre post f e hpre hf
  have herr : (runStepsTrace env.stepResult test.steps).2 = some e := by
    rw [hsteps, htrace]
  have hn := runTest_normal cfg env test hstart hinit
  refine ⟨by rw [hsteps, htrace], ?_, ?_, ?_⟩
  · rw [hn]
    split
    · rfl
    · simp [herr]
  · rw [hn]
    split
    · simp [herr]
    · simp [herr]
  · intro envs W ts1 ts2 results hr
    exact runRel_perm hr

/-- Witness for C1 at a concrete three-step test whose second step fails. -/
theorem C1_witness :
    (runStepsTrace
        (fun s => if s.action = "boom" then some (.stepFailed "x") else none)
        [⟨"navigate", "a", ""⟩, ⟨"boom", "", ""⟩, ⟨"click", "b", ""⟩]).1
      = [⟨"navigate", "a", ""⟩, ⟨"boom", "", ""⟩] ∧
    (runTest {}
        ⟨true, none, fun s => if s.action = "boom" then some (.stepFailed "x") else none, []⟩
        ⟨"t", [⟨"navigate", "a", ""⟩, ⟨"boom", "", ""⟩, ⟨"click", "b", ""⟩]⟩).passed = false ∧
    (runTest {}
        ⟨true, none, fun s => if s.action = "boom" then some (.stepFailed "x") else none, []⟩
        ⟨"t", [⟨"navigate", "a", ""⟩, ⟨"boom", "", ""⟩, ⟨"click", "b", ""⟩]⟩).error
      = some (.stepFailed "x") := by
  have h := C1_step_loop_fail_fast {}
    ⟨true, none, fun s => if s.action = "boom" then some (.stepFailed "x") else none, []⟩
    ⟨"t", [⟨"navigate", "a", ""⟩, ⟨"boom", "", ""⟩, ⟨"click", "b", ""⟩]⟩
    [⟨"navigate", "a", ""⟩] [⟨"click", "b", ""⟩] ⟨"boom", "", ""⟩ (.stepFailed "x")
    rfl (by decide) (by decide) rfl rfl
  exact ⟨h.1, h.2.1, h.2.2.1⟩

/-- C2: every outcome of the worker pool — any split of the queued tests
among the `W` workers and any interleaving of result deliveries — contains
exactly one result per submitted test (`N` results for `N` tests, a
permutation of mapping `runTest` over the tests), for every pool size `W`
including the source's `numWorkers = 4`; with zero submitted tests the only
outcome is the empty list; and for `0 < W` a completing schedule exists, so
the pool terminates with exactly these results rather than deadlocking. -/
theorem C2_run_one_result_per_test (cfg : Config) (env : Test → TestEnv) (W : Nat)
    (tests : List Test) :
    (∀ results, RunRel cfg env W tests results →
        results.length = tests.length ∧
        results.Perm (tests.map fun t => runTest cfg (env t) t)) ∧
    (∀ results, RunRel cfg env W [] results → results = []) ∧
    (0 < W → RunRel cfg env W tests (tests.map fun t => runTest cfg (env t) t)) := by
  refine ⟨?_, ?_, fun hW => runRel_exists cfg env W tests hW⟩
  · intro results h
    have hp := runRel_perm h
    exact ⟨by rw [hp.length_eq, List.length_map], hp⟩
  · intro results h
    have hp := runRel_perm h
    simpa using hp

/-- Witness for C2: the four-worker pool on one concrete test. -/
theorem C2_witness :
    RunRel {} (fun _ => ⟨true, none, fun _ => none, []⟩) numWorkers [⟨"t", []⟩]
      [runTest {} ⟨true, none, fun _ => none, []⟩ ⟨"t", []⟩] ∧
    (∀ results,
      RunRel {} (fun _ => ⟨true, none, fun _ => none, []⟩) numWorkers [⟨"t", []⟩] results →
      results.length = 1) ∧
    (∀ results,
      RunRel {} (fun _ => ⟨true, none, fun _ => none, []⟩) numWorkers [] results →
      results = []) := by
  have h := C2_run_one_result_per_test {} (fun _ => ⟨true, none, fun _ => none, []⟩)
    numWorkers [⟨"t", []⟩]
  refine ⟨?_, ?_, h.2.1⟩
  · simpa using h.2.2 (by decide)
  · intro results hr
    simpa using (h.1 results hr).1

/-- C9: verdict invariants of every emitted `TestResult`.  (1) `passed` is
`false` whenever `error` is present.  (2) Under the fail-on-console-error
policy, `passed` is `false` whenever the recorded console-error list is
non-empty.  (3) When every step succeeded but unsuppressed console errors
were recorded under the policy, the test fails and the synthesized
console-error verdict becomes the primary error.  (4) An existing step error
always takes precedence as the primary error.  (5) When the caller-supplied
suppression predicate accepts every captured console event, no console
errors are recorded and `passed` stays `true` if all steps succeeded. -/
theorem C9_verdict_invariants (cfg : Config) (env : TestEnv) (test : Test) :
    ((runTest cfg env test).error.isSome → (runTest cfg env test).passed = false) ∧
    (cfg.failOnConsoleError = true → (runTest cfg env test).errors ≠ [] →
      (runTest cfg env test).passed = false) ∧
    (env.browserStarted = true → env.initNavError = none →
      ((runStepsTrace env.stepResult test.steps).2 = none →
        cfg.failOnConsoleError = true →
        recordedConsoleErrors cfg env.consoleEvents ≠ [] →
        (runTest cfg env test).passed = false ∧
        (runTest cfg env test).error =
          some (.consoleErrorsDetected (recordedConsoleErrors cfg env.consoleEvents).length)) ∧
      (∀ e, (runStepsTrace env.stepResult test.steps).2 = some e →
        (runTest cfg env test).error = some e) ∧
      (∀ p, cfg.errorFilter = some p → (∀ ev ∈ env.consoleEvents, p ev = true) →
        (runTest cfg env test).errors = [] ∧
        ((runStepsTrace env.stepResult test.steps).2 = none →
          (runTest cfg env test).passed = true))) := by
  by_cases hstart : env.browserStarted = true
  · cases hinitc : env.initNavError with
    | some msg =>
      rw [runTest_init_failed cfg env test msg hstart hinitc]
      refine ⟨fun _ => rfl, fun _ h => absurd rfl h, fun _ hinit => ?_⟩
      exact absurd hinit (by simp)
    | none =>
      have hn := runTest_normal cfg env test hstart hinitc
      have hempty : ∀ (l : List ConsoleError), l ≠ [] → l.isEmpty = false := by
        intro l hl
        cases l with
        | nil => exact absurd rfl hl
        | cons a t => rfl
      refine ⟨?_, ?_, fun _ _ => ⟨?_, ?_, ?_⟩⟩
      · rw [hn]
        split
        · intro _
          rfl
        · intro hsome
          cases hs : (runStepsTrace env.stepResult test.steps).2 with
          | none =>
            rw [hs] at hsome
            simp at hsome
          | some e => simp [hs]
      · intro hfail hne
        rw [hn]
        rw [hn] at hne
        split
        · rfl
        · next hcond =>
          exfalso
          apply hcond
          rw [hfail]
          have : (recordedConsoleErrors cfg env.consoleEvents).isEmpty = false := by
            apply hempty
            intro hnil
            apply hne
            split
            · simp [hnil]
            · simp [hnil]
          rw [this]
          rfl
      · intro hs hfail hne
        rw [hn]
        split
        · refine ⟨rfl, ?_⟩
          simp [hs]
        · next hcond =>
          exfalso
          apply hcond
          rw [hfail, hempty _ hne]
          rfl
      · intro e he
        rw [hn]
        split
        · simp [he]
        · simp [he]
      · intro p hp hall
        have hR : recordedConsoleErrors cfg env.consoleEvents = [] :=
          recordedConsoleErrors_suppressed cfg p hp env.consoleEvents hall
        rw [hn]
        constructor
        · split
          · exact hR
          · exact hR
        · intro hs
          split
          · next hcond =>
            exfalso
            rw [hR] at hcond
            simp at hcond
          · simp [hs]
  · have hb : env.browserStarted = false := by
      cases hbs : env.browserStarted
      · rfl
      · exact absurd hbs hstart
    rw [runTest_not_started cfg env test hb]
    refine ⟨fun _ => rfl, fun _ h => absurd rfl h, fun hs _ => absurd hs hstart⟩

/-- Witness for C9: one succeeding step, one unsuppressed console error. -/
theorem C9_witness :
    (runTest {} ⟨true, none, fun _ => none, [⟨"boom", "error", 0, "u"⟩]⟩ ⟨"t", []⟩).passed
      = false ∧
    (runTest {} ⟨true, none, fun _ => none, [⟨"boom", "error", 0, "u"⟩]⟩ ⟨"t", []⟩).error
      = some (.consoleErrorsDetected 1) ∧
    (runTest
        { errorFilter := some fun _ => true }
        ⟨true, none, fun _ => none, [⟨"boom", "error", 0, "u"⟩]⟩ ⟨"t", []⟩).passed = true := by
  have h1 := C9_verdict_invariants {} ⟨true, none, fun _ => none, [⟨"boom", "error", 0, "u"⟩]⟩
    ⟨"t", []⟩
  have h2 := C9_verdict_invariants { errorFilter := some fun _ => true }
    ⟨true, none, fun _ => none, [⟨"boom", "error", 0, "u"⟩]⟩ ⟨"t", []⟩
  have h3 := (h1.2.2 rfl rfl).1 (by decide) rfl (by decide)
  have h4 := ((h2.2.2 rfl rfl).2.2 (fun _ => true) rfl (by intro ev hev; rfl)).2 (by decide)
  exact ⟨h3.1, h3.2, h4⟩

/-! ## Lemmas: compareImages -/

theorem sampledMismatch_false_of_eq (b c : Image)
    (hsame : ∀ y ∈ stepCoords b.bounds.minY b.bounds.maxY 10,
      ∀ x ∈ stepCoords b.bounds.minX b.bounds.maxX 10,
        colorsEqual (b.pixel x y) (c.pixel x y) = true) :
    sampledMismatch b c = false := by
  rw [sampledMismatch, List.any_eq_false]
  intro y hy
  rw [Bool.not_eq_true, List.any_eq_false]
  intro x hx
  simp [hsame y hy x hx]

theorem compareImages_bytes_eq (decode : Bytes → Option Image) (b : Bytes)
    (bImg : Image) (hb : decode b = some bImg) :
    compareImages decode b b = some ⟨0, none, false, false⟩ := by
  rw [compareImages, hb]
  simp

theorem compareImages_bounds_ne (decode : Bytes → Option Image) (b c : Bytes)
    (bImg cImg : Image) (hb : decode b = some bImg) (hc : decode c = some cImg)
    (hbounds : bImg.bounds ≠ cImg.bounds) :
    compareImages decode b c = some ⟨1, none, false, false⟩ := by
  have hbc : b ≠ c := by
    intro h
    rw [h, hc] at hb
    injection hb with h2
    exact hbounds (by rw [h2])
  rw [compareImages, hb, hc]
  simp [hbc, hbounds]

theorem compareImages_sampled_clean (decode : Bytes → Option Image) (b c : Bytes)
    (bImg cImg : Image) (hb : decode b = some bImg) (hc : decode c = some cImg)
    (hbounds : bImg.bounds = cImg.bounds)
    (hsm : sampledMismatch bImg cImg = false) :
    ∃ out, compareImages decode b c = some out ∧
      out.diff = 0 ∧ out.diffImage = none ∧ out.fullPassRan = false := by
  rw [compareImages, hb, hc]
  by_cases hbc : b = c
  · exact ⟨⟨0, none, false, false⟩, by simp [hbc], rfl, rfl, rfl⟩
  · refine ⟨⟨0, none, true, false⟩, ?_, rfl, rfl, rfl⟩
    simp [hbc, hbounds, hsm]

theorem compareImages_fullPass_sampled (decode : Bytes → Option Image) (b c : Bytes)
    (bImg cImg : Image) (out : CompareOutcome)
    (hb : decode b = some bImg) (hc : decode c = some cImg)
    (hout : compareImages decode b c = some out) (hfull : out.fullPassRan = true) :
    sampledMismatch bImg cImg = true := by
  rw [compareImages, hb, hc] at hout
  dsimp only at hout
  by_cases hbc : b = c
  · rw [if_pos hbc] at hout
    injection hout with h2
    rw [← h2] at hfull
    exact absurd hfull (by decide)
  · rw [if_neg hbc] at hout
    by_cases hbounds : bImg.bounds ≠ cImg.bounds
    · rw [if_pos hbounds] at hout
      injection hout with h2
      rw [← h2] at hfull
      exact absurd hfull (by decide)
    · rw [if_neg hbounds] at hout
      cases hsm : sampledMismatch bImg cImg with
      | true => rfl
      | false =>
        rw [if_pos (by rw [hsm]; rfl)] at hout
        injection hout with h2
        rw [← h2] at hfull
        exact absurd hfull (by decide)

/-! ## Lemmas: takeScreenshot / takeSnapshot plumbing -/

theorem takeScreenshot_counter (cfg : Config) (io : ImageIO) (counter : String → Nat)
    (fs : FS Bytes) (filename testName : String) (shot : Bytes) :
    (takeScreenshot cfg io counter fs filename testName shot).counter
      = (resolveScreenshotName counter filename testName).2 := by
  rw [takeScreenshot]
  split
  · split
    · rfl
    · split
      · split <;> rfl
      · rfl
  · rfl

theorem takeSnapshot_counter (cfg : Config) (counter : String → Nat)
    (fs : FS String) (filename testName : String) (html : String) :
    (takeSnapshot cfg counter fs filename testName html).counter
      = (resolveSnapshotName counter filename testName).2 := by
  rw [takeSnapshot]
  split
  · split <;> rfl
  · rfl

theorem string_append_ne_right (a x y : String) (h : x ≠ y) : a ++ x ≠ a ++ y := by
  intro he
  apply h
  have hd := congrArg String.data he
  rw [String.data_append, String.data_append] at hd
  have := List.append_cancel_left hd
  cases x
  cases y
  simp only at this
  rw [this]

/-- C3: auto-named screenshot filenames.  With an empty explicit filename
the name is derived from the test name by replacing every space, `/` and
`\\` by `_` (`sanitizeTestName`), then suffixed by the 1-based per-test-name
occurrence counter: the first auto-named occurrence yields
`<sanitized>.png` with no numeric suffix, the `n+1`-st occurrence (`n ≥ 1`)
yields `<sanitized>_<n+1>.png`, and the counter advances by one each call.
In particular two auto-named screenshots for test "Login Test" resolve to
`Login_Test.png` and then `Login_Test_2.png`. -/
theorem C3_screenshot_autonaming (counter : String → Nat) (testName : String) :
    (counter testName = 0 →
      (resolveScreenshotName counter "" testName).1 = sanitizeTestName testName ++ ".png" ∧
      (resolveScreenshotName counter "" testName).2 testName = 1) ∧
    (∀ n, counter testName = n → 1 ≤ n →
      (resolveScreenshotName counter "" testName).1
        = sanitizeTestName testName ++ "_" ++ toString (n + 1) ++ ".png" ∧
      (resolveScreenshotName counter "" testName).2 testName = n + 1) ∧
    (counter testName = 0 → testName = "Login Test" →
      (resolveScreenshotName counter "" testName).1 = "Login_Test.png" ∧
      (resolveScreenshotName (resolveScreenshotName counter "" testName).2 "" testName).1
        = "Login_Test_2.png") := by
  refine ⟨?_, ?_, ?_⟩
  · intro h0
    constructor
    · simp [resolveScreenshotName, h0]
    · simp [resolveScreenshotName, h0]
  · intro n hn h1
    have hne : ¬(n + 1 = 1) := by omega
    constructor
    · simp [resolveScreenshotName, hn, hne]
    · simp [resolveScreenshotName, hn]
  · intro h0 htn
    subst htn
    have e2 : (resolveScreenshotName counter "" "Login Test").2 "Login Test" = 1 := by
      simp [resolveScreenshotName, h0]
    constructor
    · have e1 : (resolveScreenshotName counter "" "Login Test").1
          = sanitizeTestName "Login Test" ++ ".png" := by
        simp [resolveScreenshotName, h0]
      rw [e1]
      decide
    · have e3 : ∀ ctr2 : String → Nat, ctr2 "Login Test" = 1 →
          (resolveScreenshotName ctr2 "" "Login Test").1
            = sanitizeTestName "Login Test" ++ "_" ++ toString 2 ++ ".png" := by
        intro ctr2 h2
        simp [resolveScreenshotName, h2]
      rw [e3 _ e2]
      decide

/-- Witness for C3: the "Login Test" scenario from the zero counter. -/
theorem C3_witness :
    (resolveScreenshotName (fun _ => 0) "" "Login Test").1 = "Login_Test.png" ∧
    (resolveScreenshotName (resolveScreenshotName (fun _ => 0) "" "Login Test").2 ""
      "Login Test").1 = "Login_Test_2.png" :=
  (C3_screenshot_autonaming (fun _ => 0) "Login Test").2.2 rfl rfl

/-- C4: when no baseline file exists at the resolved path, `takeScreenshot`
writes the freshly captured image there as the new baseline, returns
success, performs no comparison, and modifies no other path. -/
theorem C4_screenshot_bootstrap (cfg : Config) (io : ImageIO) (counter : String → Nat)
    (fs : FS Bytes) (filename testName : String) (shot : Bytes)
    (hmiss : fs (screenshotPath cfg counter filename testName) = none) :
    (takeScreenshot cfg io counter fs filename testName shot).error = none ∧
    (takeScreenshot cfg io counter fs filename testName shot).compared = false ∧
    (takeScreenshot cfg io counter fs filename testName shot).fs
        (screenshotPath cfg counter filename testName) = some shot ∧
    (∀ q, q ≠ screenshotPath cfg counter filename testName →
      (takeScreenshot cfg io counter fs filename testName shot).fs q = fs q) := by
  rw [screenshotPath] at hmiss
  have hts : takeScreenshot cfg io counter fs filename testName shot
      = ⟨none, (resolveScreenshotName counter filename testName).2,
          fsWrite fs (cfg.screenshotDir ++ "/" ++
            (resolveScreenshotName counter filename testName).1) shot, false⟩ := by
    simp only [takeScreenshot, hmiss]
  rw [screenshotPath, hts]
  refine ⟨rfl, rfl, ?_, ?_⟩
  · simp [fsWrite]
  · intro q hq
    simp [fsWrite, hq]

/-- Witness for C4 on an empty filesystem with an explicit filename. -/
theorem C4_witness :
    (takeScreenshot demoCfg demoIO (fun _ => 0) (fun _ => none) "n.png" "t" [5]).error
      = none ∧
    (takeScreenshot demoCfg demoIO (fun _ => 0) (fun _ => none) "n.png" "t" [5]).compared
      = false ∧
    (takeScreenshot demoCfg demoIO (fun _ => 0) (fun _ => none) "n.png" "t" [5]).fs
      "shots/n.png" = some [5] := by
  have h := C4_screenshot_bootstrap demoCfg demoIO (fun _ => 0) (fun _ => none) "n.png" "t"
    [5] rfl
  refine ⟨h.1, h.2.1, ?_⟩
  have h3 := h.2.2.1
  have hpath : screenshotPath demoCfg (fun _ => 0) "n.png" "t" = "shots/n.png" := by decide
  rw [hpath] at h3
  exact h3

/-- C5: the sampling fast path of `compareImages`.  Whenever both inputs
decode, the dimensions agree and every pixel of the every-10th sampling grid
is equal under exact RGBA channel equality, the comparison returns
difference 0 with no diff artifact and without running the full per-pixel
pass; byte-identical inputs in particular yield difference 0 and no
artifact; and (for any inputs) the full per-pixel pass runs only if some
sampled pixel differs. -/
theorem C5_sampling_fast_path (decode : Bytes → Option Image) (b c : Bytes)
    (bImg cImg : Image)
    (hb : decode b = some bImg) (hc : decode c = some cImg)
    (hbounds : bImg.bounds = cImg.bounds)
    (hsame : ∀ y ∈ stepCoords bImg.bounds.minY bImg.bounds.maxY 10,
      ∀ x ∈ stepCoords bImg.bounds.minX bImg.bounds.maxX 10,
        colorsEqual (bImg.pixel x y) (cImg.pixel x y) = true) :
    (∃ out, compareImages decode b c = some out ∧
      out.diff = 0 ∧ out.diffImage = none ∧ out.fullPassRan = false) ∧
    compareImages decode b b = some ⟨0, none, false, false⟩ ∧
    (∀ b2 c2 bI cI out2, decode b2 = some bI → decode c2 = some cI →
      compareImages decode b2 c2 = some out2 → out2.fullPassRan = true →
      sampledMismatch bI cI = true) := by
  have hsm := sampledMismatch_false_of_eq bImg cImg hsame
  exact ⟨compareImages_sampled_clean decode b c bImg cImg hb hc hbounds hsm,
    compareImages_bytes_eq decode b bImg hb,
    fun b2 c2 bI cI out2 hb2 hc2 hout2 hfull =>
      compareImages_fullPass_sampled decode b2 c2 bI cI out2 hb2 hc2 hout2 hfull⟩

/-- Witness for C5: two byte-distinct inputs decoding to the same image. -/
theorem C5_witness :
    (∃ out, compareImages demoDecode [0] [1] = some out ∧
      out.diff = 0 ∧ out.diffImage = none ∧ out.fullPassRan = false) ∧
    compareImages demoDecode [0] [0] = some ⟨0, none, false, false⟩ := by
  have h := C5_sampling_fast_path demoDecode [0] [1] unitImage unitImage rfl rfl rfl
    (by decide)
  exact ⟨h.1, h.2.1⟩

/-- C6: for every pair of decodable inputs whose decoded bounds differ,
`compareImages` returns difference exactly 1 immediately: no sampling pass
and no per-pixel pass runs, and no diff artifact is produced. -/
theorem C6_dimension_mismatch (decode : Bytes → Option Image) (b c : Bytes)
    (bImg cImg : Image) (hb : decode b = some bImg) (hc : decode c = some cImg)
    (hbounds : bImg.bounds ≠ cImg.bounds) :
    compareImages decode b c = some ⟨1, none, false, false⟩ :=
  compareImages_bounds_ne decode b c bImg cImg hb hc hbounds

/-- Witness for C6: a 1×1 baseline against a 2×1 capture. -/
theorem C6_witness :
    compareImages demoDecode [0] [2] = some ⟨1, none, false, false⟩ :=
  C6_dimension_mismatch demoDecode [0] [2] unitImage wideImage rfl rfl (by decide)

theorem takeScreenshot_above_threshold (cfg : Config) (io : ImageIO) (counter : String → Nat)
    (fs : FS Bytes) (filename testName : String) (shot baselineData : Bytes)
    (out : CompareOutcome)
    (hbase : fs (screenshotPath cfg counter filename testName) = some baselineData)
    (hcmp : compareImages io.decode baselineData shot = some out)
    (hdiff : out.diff > cfg.screenshotThreshold) :
    (takeScreenshot cfg io counter fs filename testName shot).error
      = some (.baselineDiff (out.diff * 100) (cfg.screenshotThreshold * 100)
          (screenshotPath cfg counter filename testName)) ∧
    (takeScreenshot cfg io counter fs filename testName shot).fs
        (screenshotStem cfg counter filename testName ++ ".actual.png") = some shot ∧
    (∀ d, out.diffImage = some d →
      (takeScreenshot cfg io counter fs filename testName shot).fs
        (screenshotStem cfg counter filename testName ++ ".diff.png")
        = some (io.encodePng d)) ∧
    (out.diffImage = none →
      (takeScreenshot cfg io counter fs filename testName shot).fs
        (screenshotStem cfg counter filename testName ++ ".diff.png")
        = fs (screenshotStem cfg counter filename testName ++ ".diff.png")) := by
  rw [screenshotPath] at hbase
  have hne : screenshotStem cfg counter filename testName ++ ".actual.png"
      ≠ screenshotStem cfg counter filename testName ++ ".diff.png" :=
    string_append_ne_right _ _ _ (by decide)
  have hstem : trimStrSuffix (cfg.screenshotDir ++ "/" ++
      (resolveScreenshotName counter filename testName).1) ".png"
      = screenshotStem cfg counter filename testName := rfl
  cases hdi : out.diffImage with
  | none =>
    have hts : takeScreenshot cfg io counter fs filename testName shot
        = ⟨some (.baselineDiff (out.diff * 100) (cfg.screenshotThreshold * 100)
              (cfg.screenshotDir ++ "/" ++ (resolveScreenshotName counter filename testName).1)),
            (resolveScreenshotName counter filename testName).2,
            fsWrite fs (screenshotStem cfg counter filename testName ++ ".actual.png") shot,
            true⟩ := by
      simp only [takeScreenshot, hbase, hcmp, hdi, hstem]
      rw [if_pos hdiff]
    rw [screenshotPath, hts]
    refine ⟨rfl, by simp [fsWrite], ?_, ?_⟩
    · intro d hd
      exact absurd hd (by simp)
    · intro _
      simp [fsWrite, hne.symm]
  | some d0 =>
    have hts : takeScreenshot cfg io counter fs filename testName shot
        = ⟨some (.baselineDiff (out.diff * 100) (cfg.screenshotThreshold * 100)
              (cfg.screenshotDir ++ "/" ++ (resolveScreenshotName counter filename testName).1)),
            (resolveScreenshotName counter filename testName).2,
            fsWrite
              (fsWrite fs (screenshotStem cfg counter filename testName ++ ".actual.png") shot)
              (screenshotStem cfg counter filename testName ++ ".diff.png")
              (io.encodePng d0),
            true⟩ := by
      simp only [takeScreenshot, hbase, hcmp, hdi, hstem]
      rw [if_pos hdiff]
    rw [screenshotPath, hts]
    refine ⟨rfl, by simp [fsWrite, hne], ?_, ?_⟩
    · intro d hd
      injection hd with hd2
      subst hd2
      simp [fsWrite]
    · intro hnone
      exact absurd hnone (by simp)

/-- C7 counterexample: the claim "persists two debugging artifacts" fails
when the baseline and the capture decode to different dimensions.  Here the
comparison yields difference 1 (100 %, above the threshold 0) with no diff
image, the step fails naming the percentage, threshold and baseline path,
`<stem>.actual.png` is written — but no `<stem>.diff.png` exists
afterwards. -/
theorem C7_counterexample :
    (takeScreenshot demoCfg demoIO (fun _ => 0) demoFS "t.png" "t" [2]).error
      = some (.baselineDiff 100 0 "shots/t.png") ∧
    (takeScreenshot demoCfg demoIO (fun _ => 0) demoFS "t.png" "t" [2]).fs
      "shots/t.actual.png" = some [2] ∧
    (takeScreenshot demoCfg demoIO (fun _ => 0) demoFS "t.png" "t" [2]).fs
      "shots/t.diff.png" = none := by
  have h := takeScreenshot_above_threshold demoCfg demoIO (fun _ => 0) demoFS "t.png" "t"
    [2] [0] ⟨1, none, false, false⟩ (by decide)
    (compareImages_bounds_ne demoDecode [0] [2] unitImage wideImage rfl rfl (by decide))
    (by decide)
  have hpath : screenshotPath demoCfg (fun _ => 0) "t.png" "t" = "shots/t.png" := by decide
  have hstem : screenshotStem demoCfg (fun _ => 0) "t.png" "t" = "shots/t" := by decide
  refine ⟨?_, ?_, ?_⟩
  · rw [h.1, hpath]
    norm_num [demoCfg]
  · have h2 := h.2.1
    rw [hstem] at h2
    have e2 : "shots/t" ++ ".actual.png" = "shots/t.actual.png" := by decide
    rw [e2] at h2
    exact h2
  · have h3 := h.2.2.2 rfl
    rw [hstem] at h3
    have e1 : "shots/t" ++ ".diff.png" = "shots/t.diff.png" := by decide
    rw [e1] at h3
    rw [h3]
    decide

/-- C7 (amended): when a baseline exists and the comparison result exceeds
the threshold, `takeScreenshot` persists the actual capture at
`<stem>.actual.png`, persists the diff visualization at `<stem>.diff.png`
exactly when the comparison produced a diff image (on a dimension mismatch
no diff image exists and only the actual capture is written), and fails
with an error carrying the percentage difference, the threshold percentage,
and the baseline path to delete. -/
theorem C7_diff_artifacts (cfg : Config) (io : ImageIO) (counter : String → Nat)
    (fs : FS Bytes) (filename testName : String) (shot baselineData : Bytes)
    (out : CompareOutcome)
    (hbase : fs (screenshotPath cfg counter filename testName) = some baselineData)
    (hcmp : compareImages io.decode baselineData shot = some out)
    (hdiff : out.diff > cfg.screenshotThreshold) :
    (takeScreenshot cfg io counter fs filename testName shot).error
      = some (.baselineDiff (out.diff * 100) (cfg.screenshotThreshold * 100)
          (screenshotPath cfg counter filename testName)) ∧
    (takeScreenshot cfg io counter fs filename testName shot).fs
        (screenshotStem cfg counter filename testName ++ ".actual.png") = some shot ∧
    (∀ d, out.diffImage = some d →
      (takeScreenshot cfg io counter fs filename testName shot).fs
        (screenshotStem cfg counter filename testName ++ ".diff.png")
        = some (io.encodePng d)) ∧
    (out.diffImage = none →
      (takeScreenshot cfg io counter fs filename testName shot).fs
        (screenshotStem cfg counter filename testName ++ ".diff.png")
        = fs (screenshotStem cfg counter filename testName ++ ".diff.png")) :=
  takeScreenshot_above_threshold cfg io counter fs filename testName shot baselineData out
    hbase hcmp hdiff

/-- Witness for the amended C7 at the dimension-mismatch instance. -/
theorem C7_witness :
    (takeScreenshot demoCfg demoIO (fun _ => 0) demoFS "t.png" "t" [2]).error
      = some (.baselineDiff ((1 : ℚ) * 100) ((0 : ℚ) * 100)
          (screenshotPath demoCfg (fun _ => 0) "t.png" "t")) ∧
    (takeScreenshot demoCfg demoIO (fun _ => 0) demoFS "t.png" "t" [2]).fs
      (screenshotStem demoCfg (fun _ => 0) "t.png" "t" ++ ".actual.png") = some [2] ∧
    (takeScreenshot demoCfg demoIO (fun _ => 0) demoFS "t.png" "t" [2]).fs
      (screenshotStem demoCfg (fun _ => 0) "t.png" "t" ++ ".diff.png")
      = demoFS (screenshotStem demoCfg (fun _ => 0) "t.png" "t" ++ ".diff.png") := by
  have h := C7_diff_artifacts demoCfg demoIO (fun _ => 0) demoFS "t.png" "t" [2] [0]
    ⟨1, none, false, false⟩ (by decide)
    (compareImages_bounds_ne demoDecode [0] [2] unitImage wideImage rfl rfl (by decide))
    (by decide)
  exact ⟨h.1, h.2.1, h.2.2.2 rfl⟩

/-- C10: a non-empty explicit filename is used verbatim by the screenshot
and snapshot steps and the per-test-name occurrence counters are left
unread and unmodified, so a later auto-named screenshot or snapshot for the
same test name still receives the un-suffixed first-occurrence filename. -/
theorem C10_explicit_filename_frame (counter : String → Nat) (filename testName : String)
    (hf : filename ≠ "") :
    resolveScreenshotName counter filename testName = (filename, counter) ∧
    resolveSnapshotName counter filename testName = (filename, counter) ∧
    (∀ cfg io fs shot,
      (takeScreenshot cfg io counter fs filename testName shot).counter = counter) ∧
    (∀ cfg fs html,
      (takeSnapshot cfg counter fs filename testName html).counter = counter) ∧
    (counter testName = 0 →
      (resolveScreenshotName counter "" testName).1
        = sanitizeTestName testName ++ ".png" ∧
      (resolveSnapshotName counter "" testName).1
        = sanitizeTestName testName ++ ".html") := by
  have h1 : resolveScreenshotName counter filename testName = (filename, counter) := by
    simp [resolveScreenshotName, hf]
  have h2 : resolveSnapshotName counter filename testName = (filename, counter) := by
    simp [resolveSnapshotName, hf]
  refine ⟨h1, h2, ?_, ?_, ?_⟩
  · intro cfg io fs shot
    rw [takeScreenshot_counter, h1]
  · intro cfg fs html
    rw [takeSnapshot_counter, h2]
  · intro h0
    constructor
    · simp [resolveScreenshotName, h0]
    · simp [resolveSnapshotName, h0]

/-- Witness for C10 with an explicit filename and the zero counter. -/
theorem C10_witness :
    resolveScreenshotName (fun _ => 0) "shot.png" "My Test" = ("shot.png", fun _ => 0) ∧
    (takeScreenshot demoCfg demoIO (fun _ => 0) (fun _ => none) "shot.png" "My Test" [7]).counter
      = (fun _ => 0) ∧
    (resolveScreenshotName (fun _ => 0) "" "My Test").1 = "My_Test.png" ∧
    (resolveSnapshotName (fun _ => 0) "" "My Test").1 = "My_Test.html" := by
  have h := C10_explicit_filename_frame (fun _ => 0) "shot.png" "My Test" (by decide)
  have h5 := h.2.2.2.2 rfl
  refine ⟨h.1, h.2.2.1 demoCfg demoIO (fun _ => none) [7], ?_, ?_⟩
  · rw [h5.1]
    decide
  · rw [h5.2]
    decide

/-- C8: `normalizeHTML` is idempotent — for every string `x`,
`normalizeHTML (normalizeHTML x) = normalizeHTML x` — and
`"<div>  <span>A</span>  </div>"` normalizes to the same string as
`"<div><span>A</span></div>"`. -/
theorem C8_normalizeHTML_idempotent :
    (∀ x : String, normalizeHTML (normalizeHTML x) = normalizeHTML x) ∧
    normalizeHTML "<div>  <span>A</span>  </div>"
      = normalizeHTML "<div><span>A</span></div>" := by
  constructor
  · intro x
    rw [normalizeHTML, normalizeHTML]
    exact congrArg String.mk (normalizeHTMLChars_idem x.data)
  · decide

end Fasttest
